import Mathlib

/-!
Verification development for the hackathon_kumo college-matching
application.  The repository snapshot holds the React frontend
(UniversityProfile.tsx, Search.tsx, SignUp.tsx and friends) together with
the README and deployment notes; the FastAPI backend that owns the
judgment endpoints (POST /api/likes, POST /api/dislikes) and the
recommendation endpoint (GET /api/universities/recommendations) is not in
the snapshot.  The Candidate Selection and Feedback Loop core is therefore
modelled from the specification (sections 3 to 5), while the page-level
behaviours are translated directly from the frontend source.
-/

namespace CollegeMatch

/-- Polarity of a judgment: a like or a dislike. -/
inductive Polarity where
  | like
  | dislike
  deriving DecidableEq, Repr

/-- Modelled from the spec: one judgment row of the Profile Store, the
tuple of user id, candidate id and polarity of section 3 (the backend
that writes these rows is missing from the snapshot).  The timestamp
field of section 3 is bookkeeping that no verified property reads; the
order in which record calls are applied plays its role here. -/
structure Row where
  user : Nat
  cand : Nat
  pol : Polarity
  deriving DecidableEq, Repr

/-- Modelled from the spec: the judgment store backing the Exclusion
Ledger and the Feedback Recorder. -/
abbrev Store := List Row

/-- Key predicate of the storage upsert: the row belongs to the given
(user id, candidate id) pair. -/
def keyMatch (u c : Nat) (r : Row) : Bool := r.user == u && r.cand == c

/-- Modelled from the spec: the success path of record(userId,
candidateId, polarity) of the Feedback Recorder (section 4.5), realised
as the storage-level upsert keyed by (user id, candidate id) required by
section 5: an existing row for the pair has its polarity overwritten,
otherwise a fresh row is appended. -/
def record (s : Store) (u c : Nat) (p : Polarity) : Store :=
  if s.any (keyMatch u c) then
    s.map (fun r => if keyMatch u c r then { r with pol := p } else r)
  else
    s ++ [⟨u, c, p⟩]

/-- Modelled from the spec: excludedSet(userId) of the Exclusion Ledger
(section 4.1), the candidate ids with any judgment for the user. -/
def excludedSet (s : Store) (u : Nat) : List Nat :=
  (s.filter (fun r => r.user == u)).map Row.cand

/-- Modelled from the spec: the section 3 invariant of at most one
judgment per (user, candidate) pair, as pairwise-distinct keys. -/
def wellFormed (s : Store) : Prop :=
  s.Pairwise (fun r₁ r₂ => ¬(r₁.user = r₂.user ∧ r₁.cand = r₂.cand))

/-- Modelled from the spec: a sequence of further successful record
calls applied in order, standing for the later feedback events of the
same or other users. -/
def applyRecords (ops : List (Nat × Nat × Polarity)) (s : Store) : Store :=
  ops.foldl (fun acc op => record acc op.1 op.2.1 op.2.2) s

/-- Modelled from the spec: the outcome classification of the Ranking
Adapter (section 4.2): a ranked list of candidate id and score pairs, an
empty answer, or provider unavailability with a logged reason. -/
inductive RankingOutcome where
  | Ranked (entries : List (Nat × ℚ))
  | Empty
  | Unavailable (reason : String)
  deriving Repr

/-- Modelled from the spec: the section 4.2 order on ranked entries,
descending score with ties broken by candidate id ascending. -/
def rankBefore (a b : Nat × ℚ) : Bool :=
  decide (b.2 < a.2) || (decide (a.2 = b.2) && decide (a.1 ≤ b.1))

/-- Insertion step of the deterministic sort of ranked entries. -/
def insertRanked (x : Nat × ℚ) : List (Nat × ℚ) → List (Nat × ℚ)
  | [] => [x]
  | y :: ys => if rankBefore x y then x :: y :: ys else y :: insertRanked x ys

/-- Modelled from the spec: the ranked entries sorted by descending
score, ties by candidate id ascending (section 4.2). -/
def sortRanked (l : List (Nat × ℚ)) : List (Nat × ℚ) :=
  l.foldr insertRanked []

/-- Modelled from the spec: the candidate ids offered by the ranking
step, in the deterministic section 4.2 order; empty when the provider
returned nothing or was unavailable. -/
def rankedIds : RankingOutcome → List Nat
  | .Ranked entries => (sortRanked entries).map Prod.fst
  | .Empty => []
  | .Unavailable _ => []

/-- Modelled from the spec: step 2 of the Candidate Selector (section
4.4): the ranked ids surviving the filter by the exclusion set, order
preserved. -/
def rankedSurvivors (excluded : List Nat) (outcome : RankingOutcome) : List Nat :=
  (rankedIds outcome).filter (fun c => !(excluded.contains c))

/-- Modelled from the spec: sampleExcluding of the Fallback Sampler
(section 4.3).  The uniform random draw is modelled by a seed selecting
a position among the remaining candidates; the result is none exactly
when no unexcluded candidate remains. -/
def sampleExcluding (catalog : List Nat) (excluded : List Nat) (seed : Nat) : Option Nat :=
  let remaining := catalog.filter (fun c => !(excluded.contains c))
  remaining.get? (seed % remaining.length)

/-- Modelled from the spec: the result type of next(userId) (section
4.4): a candidate, the NoneLeft terminal state, or SelectionFailed. -/
inductive NextResult where
  | Candidate (c : Nat)
  | NoneLeft
  | SelectionFailed
  deriving DecidableEq, Repr

/-- Modelled from the spec: the Candidate Selector algorithm next(userId)
of section 4.4.  The fetched argument is the Exclusion Ledger read of
step 1, none standing for StoreUnavailable; step 2 takes the first ranked
survivor; step 3 falls back to the sampler and maps an empty sample to
NoneLeft. -/
def next (catalog : List Nat) (fetched : Option (List Nat))
    (outcome : RankingOutcome) (seed : Nat) : NextResult :=
  match fetched with
  | none => .SelectionFailed
  | some excluded =>
    match (rankedSurvivors excluded outcome).head? with
    | some c => .Candidate c
    | none =>
      match sampleExcluding catalog excluded seed with
      | some c => .Candidate c
      | none => .NoneLeft

/-! Frontend: the Search page (src/frontend/src/pages/Search.tsx). -/

/-- A search result row as held in the Search page state (the Uni type of
Search.tsx). -/
structure Uni where
  unitid : Nat
  institution_name : String
  state_abbreviation : Option String
  thumb : Option String
  deriving DecidableEq, Repr

/-- The state update the action handler of the Search page applies after
a like or dislike POST completes: setResults keeps exactly the previous
entries whose unitid differs from the acted-on one. -/
def actionResults (unitid : Nat) (prev : List Uni) : List Uni :=
  prev.filter (fun u => u.unitid != unitid)

/-! Frontend: the sign-up wizard (src/unnamed SignUp page). -/

/-- The sign-up form state of SignUp.tsx, one string per input. -/
structure SignUpForm where
  email : String
  password : String
  gender : String
  state : String
  race : String
  satErw : String
  satMath : String
  act : String
  deriving Repr

/-- The ECMAScript whitespace set: the code points of the WhiteSpace and
LineTerminator productions, which is also the character class the regex
escape for whitespace matches, and the set String.prototype.trim and the
Number conversion strip: tab, line feed, vertical tab, form feed,
carriage return, space, no-break space, ogham space mark, the en-quad to
hair-space range, line separator, paragraph separator, narrow no-break
space, medium mathematical space, ideographic space, and the byte order
mark. -/
def jsWhitespaceChar (c : Char) : Bool :=
  decide (c.toNat = 9 ∨ c.toNat = 10 ∨ c.toNat = 11 ∨ c.toNat = 12 ∨
    c.toNat = 13 ∨ c.toNat = 32 ∨ c.toNat = 160 ∨ c.toNat = 5760 ∨
    (8192 ≤ c.toNat ∧ c.toNat ≤ 8202) ∨ c.toNat = 8232 ∨ c.toNat = 8233 ∨
    c.toNat = 8239 ∨ c.toNat = 8287 ∨ c.toNat = 12288 ∨ c.toNat = 65279)

/-- Strip the ECMAScript whitespace set from both ends of a character
list. -/
def jsTrim (l : List Char) : List Char :=
  ((l.dropWhile jsWhitespaceChar).reverse.dropWhile jsWhitespaceChar).reverse

/-- JavaScript String.prototype.trim on Lean strings. -/
def jsTrimString (s : String) : String := ⟨jsTrim s.toList⟩

/-- Split a character list at the first occurrence of the separator;
none when the separator does not occur. -/
def splitFirst (sep : Char) : List Char → Option (List Char × List Char)
  | [] => none
  | c :: cs =>
    if c = sep then some ([], cs)
    else
      match splitFirst sep cs with
      | none => none
      | some (pre, post) => some (c :: pre, post)

/-- Digit value of a character read in bases up to sixteen; a sentinel
above every base for non-digits. -/
def hexDigitVal (c : Char) : Nat :=
  if '0' ≤ c ∧ c ≤ '9' then c.toNat - 48
  else if 'a' ≤ c ∧ c ≤ 'f' then c.toNat - 87
  else if 'A' ≤ c ∧ c ≤ 'F' then c.toNat - 55
  else 99

/-- Whether a character is a digit of the given base. -/
def isBaseDigit (base : Nat) (c : Char) : Bool := decide (hexDigitVal c < base)

/-- A nonempty run of digits of the given base read as a natural number;
none otherwise. -/
def baseDigits (base : Nat) (l : List Char) : Option Nat :=
  if l ≠ [] ∧ l.all (isBaseDigit base) then
    some (l.foldl (fun n c => base * n + hexDigitVal c) 0)
  else none

/-- Split a character list at the first exponent marker, lowercase or
uppercase e; none when no marker occurs. -/
def splitExp : List Char → Option (List Char × List Char)
  | [] => none
  | c :: cs =>
    if c = 'e' ∨ c = 'E' then some ([], cs)
    else
      match splitExp cs with
      | none => none
      | some (pre, post) => some (c :: pre, post)

/-- The SignedInteger production of the ECMAScript numeric grammar: an
optional sign followed by decimal digits. -/
def signedInt (l : List Char) : Option ℤ :=
  match l with
  | '+' :: rest => (baseDigits 10 rest).map (fun n => (n : ℤ))
  | '-' :: rest => (baseDigits 10 rest).map (fun n => -(n : ℤ))
  | _ => (baseDigits 10 l).map (fun n => (n : ℤ))

/-- Value of an unsigned decimal mantissa, an integer part and an
optional fraction part around a dot, with at least one digit overall and
an empty side counting as zero. -/
def decMantissa (l : List Char) : Option ℚ :=
  match splitFirst '.' l with
  | none =>
    match baseDigits 10 l with
    | some n => some (n : ℚ)
    | none => none
  | some (intPart, fracPart) =>
    if intPart = [] ∧ fracPart = [] then none
    else if intPart.all (isBaseDigit 10) ∧ fracPart.all (isBaseDigit 10) then
      some ((intPart.foldl (fun n c => 10 * n + hexDigitVal c) 0 : Nat) +
        (fracPart.foldl (fun n c => 10 * n + hexDigitVal c) 0 : Nat) /
          (10 : ℚ) ^ fracPart.length)
    else none

/-- Value of an unsigned decimal literal body with its optional exponent
part: the mantissa scaled by ten to the signed exponent. -/
def decBody (l : List Char) : Option ℚ :=
  match splitExp l with
  | none => decMantissa l
  | some (mant, ex) =>
    match decMantissa mant, signedInt ex with
    | some m, some e => some (m * (10 : ℚ) ^ e)
    | _, _ => none

/-- Model of the JavaScript Number conversion following the ECMAScript
StringNumericLiteral grammar: the string is trimmed of the ECMAScript
whitespace set, the empty result is 0, an optional-sign decimal literal
with optional fraction and exponent is its value, and an unsigned
hexadecimal, octal or binary prefixed literal is its integer value.
Every other string maps to none, which stands for the values
Number.isFinite rejects; the Infinity spellings parse to no decimal
literal and so land on none as their non-finite values require.  Values
are exact rationals: the rounding of the double representation is not
modelled. -/
def jsNumber (s : String) : Option ℚ :=
  let t := jsTrim s.toList
  if t = [] then some 0
  else
    match t with
    | '0' :: 'x' :: rest => (baseDigits 16 rest).map (fun n => (n : ℚ))
    | '0' :: 'X' :: rest => (baseDigits 16 rest).map (fun n => (n : ℚ))
    | '0' :: 'o' :: rest => (baseDigits 8 rest).map (fun n => (n : ℚ))
    | '0' :: 'O' :: rest => (baseDigits 8 rest).map (fun n => (n : ℚ))
    | '0' :: 'b' :: rest => (baseDigits 2 rest).map (fun n => (n : ℚ))
    | '0' :: 'B' :: rest => (baseDigits 2 rest).map (fun n => (n : ℚ))
    | '-' :: rest => (decBody rest).map (fun q => -q)
    | '+' :: rest => decBody rest
    | _ => decBody t

/-- Characters accepted by the character class of the sign-up email
pattern: anything except the ECMAScript whitespace class and the at
sign. -/
def okChar (c : Char) : Bool := !jsWhitespaceChar c && c != '@'

/-- True when the list has a dot strictly inside it, neither in first
nor in last position. -/
def hasInteriorDot : List Char → Bool
  | [] => false
  | _ :: rest => rest.dropLast.contains '.'

/-- The sign-up email test of SignUp.tsx step 0, the anchored pattern of
one or more non-whitespace non-at characters, an at sign, one or more
such characters, a dot, and one or more such characters.  A string
matches exactly when it splits at its only at sign into a nonempty local
part of allowed characters and a domain of allowed characters containing
an interior dot. -/
def emailRegexMatch (s : String) : Bool :=
  match splitFirst '@' s.toList with
  | none => false
  | some (locPart, domPart) =>
    !locPart.isEmpty && locPart.all okChar && domPart.all okChar &&
      hasInteriorDot domPart

/-- validateStep from SignUp.tsx: some message rejects the step, none
accepts it.  The emptiness test the source applies to the password is
subsumed by its length test, as in JavaScript. -/
def validateStep (form : SignUpForm) (s : Nat) : Option String :=
  if s = 0 then
    if jsTrimString form.email = "" then some "Email is required"
    else if !emailRegexMatch form.email then some "Enter a valid email"
    else if form.password.length < 6 then some "Password must be at least 6 characters"
    else none
  else if s = 2 ∧ jsTrimString form.satErw ≠ "" then
    match jsNumber form.satErw with
    | some v =>
      if v < 200 ∨ v > 800 then some "SAT ERW must be between 200 and 800" else none
    | none => some "SAT ERW must be between 200 and 800"
  else if s = 3 ∧ jsTrimString form.satMath ≠ "" then
    match jsNumber form.satMath with
    | some v =>
      if v < 200 ∨ v > 800 then some "SAT Math must be between 200 and 800" else none
    | none => some "SAT Math must be between 200 and 800"
  else if s = 4 ∧ jsTrimString form.act ≠ "" then
    match jsNumber form.act with
    | some v =>
      if v < 1 ∨ v > 36 then some "ACT must be between 1 and 36" else none
    | none => some "ACT must be between 1 and 36"
  else none

/-! Frontend: the slide navigation of UniversityProfile.tsx. -/

/-- The Back action of the Slides component: max(0, index - 1), indices
as integers exactly as in the JavaScript source. -/
def slidesPrev (index : ℤ) : ℤ := max 0 (index - 1)

/-- The Next action of the Slides component: min(length - 1, index + 1). -/
def slidesNext (count index : ℤ) : ℤ := min (count - 1) (index + 1)

/-! Helper lemmas about the judgment store and the selector. -/

theorem keyMatch_iff {u c : Nat} {r : Row} :
    keyMatch u c r = true ↔ r.user = u ∧ r.cand = c := by
  simp [keyMatch]

theorem mem_excludedSet {s : Store} {u x : Nat} :
    x ∈ excludedSet s u ↔ ∃ r ∈ s, r.user = u ∧ r.cand = x := by
  simp only [excludedSet, List.mem_map, List.mem_filter, beq_iff_eq]
  constructor
  · rintro ⟨r, ⟨hr, hu⟩, hc⟩
    exact ⟨r, hr, hu, hc⟩
  · rintro ⟨r, hr, hu, hc⟩
    exact ⟨r, ⟨hr, hu⟩, hc⟩

theorem mem_excludedSet_record_self (s : Store) (u c : Nat) (p : Polarity) :
    c ∈ excludedSet (record s u c p) u := by
  rw [mem_excludedSet]
  cases hany : s.any (keyMatch u c) with
  | false =>
    refine ⟨⟨u, c, p⟩, ?_, rfl, rfl⟩
    simp [record, hany]
  | true =>
    obtain ⟨r, hr, hk⟩ := List.any_eq_true.mp hany
    obtain ⟨hu, hc⟩ := keyMatch_iff.mp hk
    refine ⟨{ r with pol := p }, ?_, hu, hc⟩
    simp only [record, hany, if_true]
    have : (fun r => if keyMatch u c r then { r with pol := p } else r) r =
        { r with pol := p } := by simp [hk]
    exact this ▸ List.mem_map_of_mem _ hr

theorem mem_excludedSet_record_mono {s : Store} {u x : Nat} (a b : Nat) (p : Polarity)
    (h : x ∈ excludedSet s u) : x ∈ excludedSet (record s a b p) u := by
  rw [mem_excludedSet] at h ⊢
  obtain ⟨r, hr, hu, hc⟩ := h
  cases hany : s.any (keyMatch a b) with
  | false =>
    refine ⟨r, ?_, hu, hc⟩
    simp [record, hany, hr]
  | true =>
    refine ⟨if keyMatch a b r then { r with pol := p } else r, ?_, ?_, ?_⟩
    · simp only [record, hany, if_true]
      exact List.mem_map_of_mem _ hr
    · cases hk : keyMatch a b r <;> simp [hk, hu]
    · cases hk : keyMatch a b r <;> simp [hk, hc]

theorem mem_excludedSet_applyRecords {s : Store} {u x : Nat}
    (ops : List (Nat × Nat × Polarity)) (h : x ∈ excludedSet s u) :
    x ∈ excludedSet (applyRecords ops s) u := by
  induction ops generalizing s with
  | nil => exact h
  | cons op rest ih =>
    exact ih (mem_excludedSet_record_mono op.1 op.2.1 op.2.2 h)

theorem sampleExcluding_mem {catalog excluded : List Nat} {seed c : Nat}
    (h : sampleExcluding catalog excluded seed = some c) :
    c ∈ catalog ∧ c ∉ excluded := by
  simp only [sampleExcluding] at h
  have hmem := List.get?_mem h
  have := List.mem_filter.mp hmem
  refine ⟨this.1, ?_⟩
  simpa [List.elem_iff] using this.2

theorem next_not_excluded {catalog excluded : List Nat} {outcome : RankingOutcome}
    {seed x : Nat}
    (h : next catalog (some excluded) outcome seed = NextResult.Candidate x) :
    x ∉ excluded := by
  cases hs : (rankedSurvivors excluded outcome).head? with
  | some c =>
    simp only [next, hs, NextResult.Candidate.injEq] at h
    subst h
    have hc : c ∈ rankedSurvivors excluded outcome := List.mem_of_mem_head? hs
    have := List.mem_filter.mp hc
    simpa [List.elem_iff] using this.2
  | none =>
    cases hq : sampleExcluding catalog excluded seed with
    | some c =>
      simp only [next, hs, hq, NextResult.Candidate.injEq] at h
      subst h
      exact (sampleExcluding_mem hq).2
    | none =>
      simp only [next, hs, hq] at h
      exact absurd h (by simp)

theorem record_any (s : Store) (u c : Nat) (p : Polarity) :
    (record s u c p).any (keyMatch u c) = true := by
  cases hany : s.any (keyMatch u c) with
  | false =>
    rw [List.any_eq_true]
    refine ⟨⟨u, c, p⟩, ?_, ?_⟩
    · simp [record, hany]
    · simp [keyMatch]
  | true =>
    obtain ⟨r, hr, hk⟩ := List.any_eq_true.mp hany
    rw [List.any_eq_true]
    refine ⟨{ r with pol := p }, ?_, ?_⟩
    · simp only [record, hany, if_true]
      have : (fun r => if keyMatch u c r then { r with pol := p } else r) r =
          { r with pol := p } := by simp [hk]
      exact this ▸ List.mem_map_of_mem _ hr
    · obtain ⟨hu, hc⟩ := keyMatch_iff.mp hk
      simp [keyMatch, hu, hc]

theorem record_pol {s : Store} {u c : Nat} {p : Polarity} {r : Row}
    (hr : r ∈ record s u c p) (hk : keyMatch u c r = true) : r.pol = p := by
  cases hany : s.any (keyMatch u c) with
  | false =>
    simp only [record, hany, Bool.false_eq_true, if_false] at hr
    rcases List.mem_append.mp hr with hmem | hmem
    · have := (List.any_eq_false.mp hany) r hmem
      exact absurd hk this
    · have : r = ⟨u, c, p⟩ := by simpa using hmem
      rw [this]
  | true =>
    simp only [record, hany, if_true, List.mem_map] at hr
    obtain ⟨r₀, hr₀, hEq⟩ := hr
    cases hk₀ : keyMatch u c r₀ with
    | true =>
      rw [hk₀] at hEq
      simp at hEq
      rw [← hEq]
    | false =>
      rw [hk₀] at hEq
      simp at hEq
      rw [← hEq] at hk
      exact absurd hk (by simp [hk₀])

theorem wellFormed_record {s : Store} (u c : Nat) (p : Polarity)
    (h : wellFormed s) : wellFormed (record s u c p) := by
  cases hany : s.any (keyMatch u c) with
  | false =>
    simp only [record, hany, Bool.false_eq_true, if_false]
    rw [wellFormed, List.pairwise_append]
    refine ⟨h, by simp [wellFormed], ?_⟩
    intro a ha b hb
    have hbe : b = (⟨u, c, p⟩ : Row) := by simpa using hb
    have hna := (List.any_eq_false.mp hany) a ha
    intro hcon
    exact hna (keyMatch_iff.mpr (by rw [hbe] at hcon; exact hcon))
  | true =>
    simp only [record, hany, if_true]
    rw [wellFormed, List.pairwise_map]
    refine h.imp ?_
    intro a b hab hcon
    apply hab
    have ha1 : (if keyMatch u c a then { a with pol := p } else a).user = a.user := by
      cases hka : keyMatch u c a <;> simp
    have ha2 : (if keyMatch u c a then { a with pol := p } else a).cand = a.cand := by
      cases hka : keyMatch u c a <;> simp
    have hb1 : (if keyMatch u c b then { b with pol := p } else b).user = b.user := by
      cases hkb : keyMatch u c b <;> simp
    have hb2 : (if keyMatch u c b then { b with pol := p } else b).cand = b.cand := by
      cases hkb : keyMatch u c b <;> simp
    rw [ha1, ha2, hb1, hb2] at hcon
    exact hcon

theorem filter_key_unique {s : Store} {u c : Nat} (hwf : wellFormed s) :
    s.filter (keyMatch u c) = [] ∨
      ∃ r, s.filter (keyMatch u c) = [r] ∧ r.user = u ∧ r.cand = c := by
  induction s with
  | nil => exact Or.inl rfl
  | cons a t ih =>
    have hwt : wellFormed t := (List.pairwise_cons.mp hwf).2
    have hha : ∀ b ∈ t, ¬(a.user = b.user ∧ a.cand = b.cand) :=
      (List.pairwise_cons.mp hwf).1
    cases hk : keyMatch u c a with
    | false =>
      rcases ih hwt with hnil | ⟨r, hr, hru, hrc⟩
      · exact Or.inl (by simp [List.filter_cons, hk, hnil])
      · exact Or.inr ⟨r, by simp [List.filter_cons, hk, hr], hru, hrc⟩
    | true =>
      obtain ⟨hau, hac⟩ := keyMatch_iff.mp hk
      have htnil : t.filter (keyMatch u c) = [] := by
        rw [List.filter_eq_nil_iff]
        intro b hb hkb
        obtain ⟨hbu, hbc⟩ := keyMatch_iff.mp hkb
        exact hha b hb ⟨hau.trans hbu.symm, hac.trans hbc.symm⟩
      exact Or.inr ⟨a, by simp [List.filter_cons, hk, htnil], hau, hac⟩

theorem record_filter_key {s : Store} (u c : Nat) (p : Polarity)
    (hwf : wellFormed s) :
    (record s u c p).filter (keyMatch u c) = [⟨u, c, p⟩] := by
  cases hany : s.any (keyMatch u c) with
  | false =>
    have hnil : s.filter (keyMatch u c) = [] := by
      rw [List.filter_eq_nil_iff]
      exact List.any_eq_false.mp hany
    simp only [record, hany, Bool.false_eq_true, if_false, List.filter_append, hnil]
    simp [keyMatch]
  | true =>
    simp only [record, hany, if_true]
    rw [List.filter_map]
    have hcong : s.filter
        ((keyMatch u c) ∘ fun r => if keyMatch u c r then { r with pol := p } else r) =
        s.filter (keyMatch u c) := by
      apply List.filter_congr
      intro r _
      cases hk : keyMatch u c r
      · simp [hk]
      · obtain ⟨hu, hc⟩ := keyMatch_iff.mp hk
        simp [hk, keyMatch, hu, hc]
    rw [hcong]
    rcases filter_key_unique hwf with hnil | ⟨r, hr, hru, hrc⟩
    · have : ∃ r ∈ s, keyMatch u c r = true := List.any_eq_true.mp hany
      obtain ⟨r, hrs, hkr⟩ := this
      have : r ∈ s.filter (keyMatch u c) := List.mem_filter.mpr ⟨hrs, hkr⟩
      rw [hnil] at this
      exact absurd this (List.not_mem_nil r)
    · rw [hr]
      have hkr : keyMatch u c r = true := keyMatch_iff.mpr ⟨hru, hrc⟩
      simp [hkr]
      cases r
      simp_all

theorem count_excludedSet (s : Store) (u c : Nat) :
    (excludedSet s u).count c = (s.filter (keyMatch u c)).length := by
  induction s with
  | nil => rfl
  | cons a t ih =>
    by_cases hu : a.user = u
    · by_cases hc : a.cand = c
      · simp [excludedSet, List.filter_cons, keyMatch, hu, hc, List.count_cons] at *
        omega
      · simp [excludedSet, List.filter_cons, keyMatch, hu, hc, List.count_cons] at *
        exact ih
    · have : keyMatch u c a = false := by simp [keyMatch, hu]
      simp [excludedSet, List.filter_cons, hu, this] at *
      exact ih

theorem record_eq_map_of_any {s : Store} {u c : Nat} (p : Polarity)
    (h : s.any (keyMatch u c) = true) :
    record s u c p =
      s.map (fun r => if keyMatch u c r then { r with pol := p } else r) := by
  simp [record, h]

theorem record_twice_key {s : Store} (u c : Nat) (p₁ p₂ : Polarity)
    (hwf : wellFormed s) :
    (record (record s u c p₁) u c p₂).filter (keyMatch u c) = [⟨u, c, p₂⟩] ∧
    (excludedSet (record (record s u c p₁) u c p₂) u).count c = 1 := by
  have h2 := record_filter_key u c p₂ (wellFormed_record u c p₁ hwf)
  exact ⟨h2, by rw [count_excludedSet, h2]; rfl⟩

/-! The claims. -/

/-- C1: once a judgment for (U, C) has been recorded, C belongs to the
exclusion set of U after any sequence of further record calls, and no
next call for U against that exclusion set can return C, so the served
candidate is never a member of the exclusion set at selection time. -/
theorem judged_candidate_never_served (s : Store) (u c : Nat) (p : Polarity)
    (ops : List (Nat × Nat × Polarity)) (catalog : List Nat)
    (outcome : RankingOutcome) (seed : Nat) :
    c ∈ excludedSet (applyRecords ops (record s u c p)) u ∧
    next catalog (some (excludedSet (applyRecords ops (record s u c p)) u))
        outcome seed ≠ NextResult.Candidate c := by
  have hmem := mem_excludedSet_applyRecords ops (mem_excludedSet_record_self s u c p)
  exact ⟨hmem, fun h => (next_not_excluded h) hmem⟩

/-- Witness for C1 at a concrete input: a like for candidate 2 by user 1
keeps candidate 2 out of every later selection. -/
theorem judged_candidate_never_served_witness :
    2 ∈ excludedSet (applyRecords [] (record [] 1 2 Polarity.like)) 1 ∧
    next [2, 3] (some (excludedSet (applyRecords [] (record [] 1 2 Polarity.like)) 1))
        (RankingOutcome.Ranked [(2, 1)]) 0 ≠ NextResult.Candidate 2 :=
  judged_candidate_never_served [] 1 2 Polarity.like [] [2, 3]
    (RankingOutcome.Ranked [(2, 1)]) 0

/-- C2: when the ranking step yields no usable candidate, next returns
exactly what the Fallback Sampler yields, mapped to NoneLeft when no
unjudged candidate remains, and never the SelectionFailed error. -/
theorem ranking_unusable_falls_back (catalog excluded : List Nat)
    (outcome : RankingOutcome) (seed : Nat)
    (h : rankedSurvivors excluded outcome = []) :
    next catalog (some excluded) outcome seed =
      (match sampleExcluding catalog excluded seed with
        | some c => NextResult.Candidate c
        | none => NextResult.NoneLeft) ∧
    next catalog (some excluded) outcome seed ≠ NextResult.SelectionFailed ∧
    (catalog.filter (fun c => !(excluded.contains c)) = [] →
      next catalog (some excluded) outcome seed = NextResult.NoneLeft) := by
  have hmain : next catalog (some excluded) outcome seed =
      (match sampleExcluding catalog excluded seed with
        | some c => NextResult.Candidate c
        | none => NextResult.NoneLeft) := by
    simp [next, h]
  refine ⟨hmain, ?_, ?_⟩
  · rw [hmain]
    cases sampleExcluding catalog excluded seed <;> simp
  · intro hrem
    rw [hmain]
    have hsample : sampleExcluding catalog excluded seed = none := by
      simp only [sampleExcluding]
      rw [hrem]
      rfl
    rw [hsample]

/-- Witness for C2 at a concrete input: a ranked list made entirely of
excluded ids falls back to sampling. -/
theorem ranking_unusable_falls_back_witness :
    rankedSurvivors [1] (RankingOutcome.Ranked [(1, 1)]) = [] ∧
    next [1, 2] (some [1]) (RankingOutcome.Ranked [(1, 1)]) 0 ≠
      NextResult.SelectionFailed :=
  ⟨by decide,
    (ranking_unusable_falls_back [1, 2] [1] (RankingOutcome.Ranked [(1, 1)]) 0
      (by decide)).2.1⟩

/-- C3: a ranking-provider failure is absorbed: next with an Unavailable
outcome behaves exactly as the Fallback Sampler dictates and never
surfaces SelectionFailed. -/
theorem provider_unavailable_absorbed (catalog excluded : List Nat)
    (reason : String) (seed : Nat) :
    next catalog (some excluded) (RankingOutcome.Unavailable reason) seed =
      (match sampleExcluding catalog excluded seed with
        | some c => NextResult.Candidate c
        | none => NextResult.NoneLeft) ∧
    next catalog (some excluded) (RankingOutcome.Unavailable reason) seed ≠
      NextResult.SelectionFailed := by
  have h : rankedSurvivors excluded (RankingOutcome.Unavailable reason) = [] := rfl
  have hmain : next catalog (some excluded) (RankingOutcome.Unavailable reason) seed =
      (match sampleExcluding catalog excluded seed with
        | some c => NextResult.Candidate c
        | none => NextResult.NoneLeft) := by
    simp [next, h]
  refine ⟨hmain, ?_⟩
  rw [hmain]
  cases sampleExcluding catalog excluded seed <;> simp

/-- Witness for C3 at a concrete input. -/
theorem provider_unavailable_absorbed_witness :
    next [5] (some []) (RankingOutcome.Unavailable "timeout") 0 ≠
      NextResult.SelectionFailed :=
  (provider_unavailable_absorbed [5] [] "timeout" 0).2

/-- C4: recording a like then a dislike for the same pair leaves exactly
one judgment row for the pair, with polarity dislike, and the candidate
appears in the exclusion set exactly once. -/
theorem overwrite_leaves_single_dislike (s : Store) (u c : Nat)
    (hwf : wellFormed s) :
    (record (record s u c Polarity.like) u c Polarity.dislike).filter (keyMatch u c) =
      [⟨u, c, Polarity.dislike⟩] ∧
    (excludedSet (record (record s u c Polarity.like) u c Polarity.dislike) u).count c
      = 1 :=
  record_twice_key u c Polarity.like Polarity.dislike hwf

/-- Witness for C4 at a concrete input. -/
theorem overwrite_leaves_single_dislike_witness :
    wellFormed [] ∧
    ((record (record [] 1 2 Polarity.like) 1 2 Polarity.dislike).filter (keyMatch 1 2) =
      [⟨1, 2, Polarity.dislike⟩] ∧
    (excludedSet (record (record [] 1 2 Polarity.like) 1 2 Polarity.dislike) 1).count 2
      = 1) :=
  ⟨by simp [wellFormed], overwrite_leaves_single_dislike [] 1 2 (by simp [wellFormed])⟩

/-- C5: recording the same judgment twice leaves the judgment store, and
hence the exclusion set, in the same state as recording it once. -/
theorem record_idempotent (s : Store) (u c : Nat) (p : Polarity) :
    record (record s u c p) u c p = record s u c p ∧
    excludedSet (record (record s u c p) u c p) u =
      excludedSet (record s u c p) u := by
  have hstore : record (record s u c p) u c p = record s u c p := by
    rw [record_eq_map_of_any p (record_any s u c p)]
    have hid : ∀ r ∈ record s u c p,
        (if keyMatch u c r then { r with pol := p } else r) = r := by
      intro r hr
      cases hk : keyMatch u c r with
      | false => simp
      | true =>
        have hp := record_pol hr hk
        cases r
        simp_all
    rw [List.map_congr_left hid]
    exact List.map_id' _
  exact ⟨hstore, by rw [hstore]⟩

/-- C6: a user who has judged the whole catalog receives NoneLeft, not an
error, whatever the ranking provider answered (its ids being catalog
candidates) and whatever the sampler seed. -/
theorem exhausted_catalog_none_left (catalog excluded : List Nat)
    (outcome : RankingOutcome) (seed : Nat)
    (hsub : ∀ x ∈ rankedIds outcome, x ∈ catalog)
    (hall : ∀ x ∈ catalog, x ∈ excluded) :
    next catalog (some excluded) outcome seed = NextResult.NoneLeft := by
  have hsurv : rankedSurvivors excluded outcome = [] := by
    rw [rankedSurvivors, List.filter_eq_nil_iff]
    intro x hx
    simp [List.elem_iff, hall x (hsub x hx)]
  have hrem : catalog.filter (fun c => !(excluded.contains c)) = [] := by
    rw [List.filter_eq_nil_iff]
    intro x hx
    simp [List.elem_iff, hall x hx]
  have hsample : sampleExcluding catalog excluded seed = none := by
    simp only [sampleExcluding]
    rw [hrem]
    rfl
  simp [next, hsurv, hsample]

/-- Witness for C6 at a concrete input: the section 8 scenario of a
two-candidate catalog fully judged. -/
theorem exhausted_catalog_none_left_witness :
    (∀ x ∈ rankedIds (RankingOutcome.Ranked [(1, 1)]), x ∈ [1, 2]) ∧
    (∀ x ∈ [1, 2], x ∈ [2, 1]) ∧
    next [1, 2] (some [2, 1]) (RankingOutcome.Ranked [(1, 1)]) 3 =
      NextResult.NoneLeft :=
  ⟨by decide, by decide,
    exhausted_catalog_none_left [1, 2] [2, 1] (RankingOutcome.Ranked [(1, 1)]) 3
      (by decide) (by decide)⟩

/-- C7: two concurrent record calls for the same pair, modelled as the
two possible serialization orders the storage upsert admits, both end
with exactly one judgment row for the pair carrying the polarity of the
last-applied write, and with the candidate excluded exactly once. -/
theorem concurrent_same_pair_serializes (s : Store) (u c : Nat)
    (p₁ p₂ : Polarity) (hwf : wellFormed s) :
    ((record (record s u c p₁) u c p₂).filter (keyMatch u c) = [⟨u, c, p₂⟩] ∧
      (excludedSet (record (record s u c p₁) u c p₂) u).count c = 1) ∧
    ((record (record s u c p₂) u c p₁).filter (keyMatch u c) = [⟨u, c, p₁⟩] ∧
      (excludedSet (record (record s u c p₂) u c p₁) u).count c = 1) :=
  ⟨record_twice_key u c p₁ p₂ hwf, record_twice_key u c p₂ p₁ hwf⟩

/-- Witness for C7 at a concrete input: the section 8 scenario of a
simultaneous like and dislike for the same candidate. -/
theorem concurrent_same_pair_serializes_witness :
    wellFormed [⟨3, 4, Polarity.like⟩] ∧
    ((record (record [⟨3, 4, Polarity.like⟩] 3 9 Polarity.like) 3 9 Polarity.dislike).filter
        (keyMatch 3 9) = [⟨3, 9, Polarity.dislike⟩] ∧
      (excludedSet (record (record [⟨3, 4, Polarity.like⟩] 3 9 Polarity.like) 3 9
        Polarity.dislike) 3).count 9 = 1) ∧
    ((record (record [⟨3, 4, Polarity.like⟩] 3 9 Polarity.dislike) 3 9 Polarity.like).filter
        (keyMatch 3 9) = [⟨3, 9, Polarity.like⟩] ∧
      (excludedSet (record (record [⟨3, 4, Polarity.like⟩] 3 9 Polarity.dislike) 3 9
        Polarity.like) 3).count 9 = 1) := by
  have hwf : wellFormed [⟨3, 4, Polarity.like⟩] := by simp [wellFormed]
  have h := concurrent_same_pair_serializes [⟨3, 4, Polarity.like⟩] 3 9
    Polarity.like Polarity.dislike hwf
  exact ⟨hwf, h.1, h.2⟩

/-- C8: after a like or dislike on a search result, the results list is
the previous list with exactly the entries of that unitid removed: the
update is a sublist of the previous list, so the surviving entries are
unchanged and keep their relative order, and the multiplicity of every
entry is preserved unless its unitid is the acted-on one, in which case
it drops to zero. -/
theorem search_action_removes_exactly_matches (unitid : Nat) (prev : List Uni) :
    (actionResults unitid prev).Sublist prev ∧
    ∀ x : Uni, (actionResults unitid prev).count x =
      if x.unitid = unitid then 0 else prev.count x := by
  refine ⟨List.filter_sublist prev, fun x => ?_⟩
  by_cases h : x.unitid = unitid
  · rw [if_pos h, List.count_eq_zero]
    intro hx
    have := (List.mem_filter.mp hx).2
    simp [h] at this
  · rw [if_neg h]
    exact List.count_filter (by simp [h])

/-- C9: the sign-up step validation accepts exactly the stated inputs:
the account step passes exactly when the email is non-blank, matches the
sign-up pattern, and the password has at least six characters; the
optional-demographics step always passes; a SAT entry passes exactly
when it is blank or a finite number between 200 and 800; an ACT entry
passes exactly when it is blank or a finite number between 1 and 36. -/
theorem validateStep_total_ranges (form : SignUpForm) :
    (validateStep form 0 = none ↔
      (jsTrimString form.email ≠ "" ∧ emailRegexMatch form.email = true ∧
        6 ≤ form.password.length)) ∧
    validateStep form 1 = none ∧
    (validateStep form 2 = none ↔
      (jsTrimString form.satErw = "" ∨
        ∃ v : ℚ, jsNumber form.satErw = some v ∧ 200 ≤ v ∧ v ≤ 800)) ∧
    (validateStep form 3 = none ↔
      (jsTrimString form.satMath = "" ∨
        ∃ v : ℚ, jsNumber form.satMath = some v ∧ 200 ≤ v ∧ v ≤ 800)) ∧
    (validateStep form 4 = none ↔
      (jsTrimString form.act = "" ∨
        ∃ v : ℚ, jsNumber form.act = some v ∧ 1 ≤ v ∧ v ≤ 36)) := by
  refine ⟨?_, rfl, ?_, ?_, ?_⟩
  · by_cases h1 : jsTrimString form.email = ""
    · simp [validateStep, h1]
    · cases h2 : emailRegexMatch form.email with
      | false => simp [validateStep, h1, h2]
      | true =>
        by_cases h3 : form.password.length < 6
        · simp [validateStep, h1, h2, h3]
        · simp [validateStep, h1, h2, h3]
          omega
  · by_cases ht : jsTrimString form.satErw = ""
    · simp [validateStep, ht]
    · cases hv : jsNumber form.satErw with
      | none => simp [validateStep, ht, hv]
      | some v =>
        by_cases hr : v < 200 ∨ v > 800
        · simp [validateStep, ht, hv, hr]
          intro hlo
          rcases hr with hr | hr
          · exact absurd hlo (not_le.mpr hr)
          · exact hr
        · push_neg at hr
          have hne : ¬(v < 200 ∨ v > 800) :=
            not_or.mpr ⟨not_lt.mpr hr.1, not_lt.mpr hr.2⟩
          simp [validateStep, ht, hv, hne, hr.1, hr.2]
  · by_cases ht : jsTrimString form.satMath = ""
    · simp [validateStep, ht]
    · cases hv : jsNumber form.satMath with
      | none => simp [validateStep, ht, hv]
      | some v =>
        by_cases hr : v < 200 ∨ v > 800
        · simp [validateStep, ht, hv, hr]
          intro hlo
          rcases hr with hr | hr
          · exact absurd hlo (not_le.mpr hr)
          · exact hr
        · push_neg at hr
          have hne : ¬(v < 200 ∨ v > 800) :=
            not_or.mpr ⟨not_lt.mpr hr.1, not_lt.mpr hr.2⟩
          simp [validateStep, ht, hv, hne, hr.1, hr.2]
  · by_cases ht : jsTrimString form.act = ""
    · simp [validateStep, ht]
    · cases hv : jsNumber form.act with
      | none => simp [validateStep, ht, hv]
      | some v =>
        by_cases hr : v < 1 ∨ v > 36
        · simp [validateStep, ht, hv, hr]
          intro hlo
          rcases hr with hr | hr
          · exact absurd hlo (not_le.mpr hr)
          · exact hr
        · push_neg at hr
          have hne : ¬(v < 1 ∨ v > 36) :=
            not_or.mpr ⟨not_lt.mpr hr.1, not_lt.mpr hr.2⟩
          simp [validateStep, ht, hv, hne, hr.1, hr.2]

/-- C10: the slide navigation keeps the index in bounds: Back computes
max(0, index - 1) and Next computes min(count - 1, index + 1), and for a
nonempty slide list with an in-range current index both results stay in
[0, count - 1], so the displayed slide is always defined. -/
theorem slides_nav_in_bounds (n i : ℤ) (hn : 1 ≤ n) (h0 : 0 ≤ i)
    (h1 : i ≤ n - 1) :
    slidesPrev i = max 0 (i - 1) ∧ slidesNext n i = min (n - 1) (i + 1) ∧
    0 ≤ slidesPrev i ∧ slidesPrev i ≤ n - 1 ∧
    0 ≤ slidesNext n i ∧ slidesNext n i ≤ n - 1 :=
  ⟨rfl, rfl, le_max_left 0 _, max_le (by omega) (by omega),
    le_min (by omega) (by omega), min_le_left _ _⟩

/-- Witness for C10 at a concrete input: four slides, index one, as on
the university profile page. -/
theorem slides_nav_in_bounds_witness :
    ((1 : ℤ) ≤ 4 ∧ (0 : ℤ) ≤ 1 ∧ (1 : ℤ) ≤ 4 - 1) ∧
    (slidesPrev 1 = max 0 (1 - 1) ∧ slidesNext 4 1 = min (4 - 1) (1 + 1) ∧
      0 ≤ slidesPrev 1 ∧ slidesPrev 1 ≤ 4 - 1 ∧
      0 ≤ slidesNext 4 1 ∧ slidesNext 4 1 ≤ 4 - 1) :=
  ⟨⟨by decide, by decide, by decide⟩,
    slides_nav_in_bounds 4 1 (by decide) (by decide) (by decide)⟩

end CollegeMatch
